import Mathlib

/-!
Verification of the crawl-strategy core of `autoscrape` against its
natural-language specification.

The definitions below are a shallow embedding of
`src/autoscrape/scrapers/manual.py` (`ManualControlScraper`):

* Python strings are `String` / `List Char`; `str.lower()` is modelled by
  `lowerChar` (the ASCII fragment, which is what the source relies on);
  the `in` substring test is `containsSub`.
* The constructor keyword arguments become the `Config` structure, with the
  constructor defaults collected in `defaults`.  Python `None` and the empty
  string are both falsy; optional string settings are `Option String` and a
  `some ""` behaves like `none` exactly where the source tests truthiness.
* Generator functions are materialised into lists (every generator in the
  source is consumed in full by its caller); code that can raise returns
  `Except String` carrying the exception message.
* The browser-control collaborator is modelled by explicit page data: a
  pagination world is a function `Nat → List String` giving the button text
  vectors of the page reached after that many "next" clicks, and a crawl
  page is a `Page` of form/link text vectors.  The unbounded `while` loop of
  `keep_clicking_next_btns` is given fuel; `none` means the fuel ran out.
-/

deriving instance DecidableEq for Except

namespace Autoscrape

/-- Python `str.lower()` on one character (ASCII fragment: codepoints 65–90
map to 97–122, everything else is unchanged). -/
def lowerChar (c : Char) : Char :=
  if 65 ≤ c.toNat ∧ c.toNat ≤ 90 then Char.ofNat (c.toNat + 32) else c

/-- Python `str.lower()` over a whole string (as a character list). -/
def lowerList (s : List Char) : List Char := s.map lowerChar

/-- Python `needle in hay` substring containment on character lists. -/
def containsSub (needle hay : List Char) : Bool :=
  hay.tails.any (fun t => needle.isPrefixOf t)

/-- The case-insensitive matcher used for forms (`manual.py` line 271) and
"next" buttons (line 230): both sides are lowercased. -/
def textContains (needle hay : String) : Bool :=
  containsSub (lowerList needle.data) (lowerList hay.data)

/-- The link-priority sort key (`manual.py` line 314):
`self.link_priority in r[1].lower()` — only the link text is lowercased,
the configured priority substring is used verbatim. -/
def linkKeyMatch (lp : String) (text : String) : Bool :=
  containsSub lp.data (lowerList text.data)

/-- The constructor keyword arguments of `ManualControlScraper` that the
crawl logic reads. -/
structure Config where
  maxdepth : Nat
  formdepth : Nat
  next_match : String
  form_match : String
  output_data_dir : Option String
  input_type : String
  input_strings : String
  input_minlength : Nat
  wildcard : Option String
  form_input_range : Option String
  link_priority : String
  form_input_index : Nat

/-- The constructor defaults of `ManualControlScraper.__init__`. -/
def defaults : Config :=
  { maxdepth := 10
    formdepth := 0
    next_match := "next page"
    form_match := "first name"
    output_data_dir := none
    input_type := "character_iteration"
    input_strings := ""
    input_minlength := 1
    wildcard := none
    form_input_range := none
    link_priority := "search"
    form_input_index := 0 }

/-- One `{"index": ..., "string": ...}` entry of an input plan. -/
structure SingleInput where
  index : Nat
  string : String
deriving DecidableEq, Repr

/-- The alphabet used by `character_iteration_input_generator`:
`string.ascii_lowercase`, overridden by `form_input_range` when that is
truthy (`manual.py` lines 122–124). -/
def alphabetOf (cfg : Config) : List Char :=
  match cfg.form_input_range with
  | none => "abcdefghijklmnopqrstuvwxyz".data
  | some s => if s = "" then "abcdefghijklmnopqrstuvwxyz".data else s.data

/-- The wildcard suffix appended to each generated input: `self.wildcard`
when truthy, nothing otherwise (`manual.py` lines 129–130). -/
def wildcardOf (cfg : Config) : List Char :=
  match cfg.wildcard with
  | none => []
  | some s => if s = "" then [] else s.data

/-- One layer of `itertools.product`: every element of `cs` prepended to
every word of `ws`, outer loop over `cs` (so the later coordinates vary
fastest, as in `product`). -/
def prependAll (cs : List Char) (ws : List (List Char)) : List (List Char) :=
  match cs with
  | [] => []
  | c :: cs' => ws.map (fun w => c :: w) ++ prependAll cs' ws

/-- `itertools.product(cs, repeat=n)` in the order `product` yields. -/
def pyProduct (cs : List Char) : Nat → List (List Char)
  | 0 => [[]]
  | n + 1 => prependAll cs (pyProduct cs n)

/-- `character_iteration_input_generator` (`manual.py` lines 121–135),
materialised: one single-assignment plan per word of the Cartesian power,
wildcard appended when configured. -/
def character_iteration_input_generator (cfg : Config) (length : Nat) :
    List (List SingleInput) :=
  (pyProduct (alphabetOf cfg) length).map
    (fun w => [⟨cfg.form_input_index, String.mk (w ++ wildcardOf cfg)⟩])

/-- Worker for `re.split(r'(?<!\\)d', s)`: split at every occurrence of the
delimiter `d` whose immediately preceding character is not a backslash.
`prev` is the previously consumed character, `acc` the current token in
reverse. -/
def splitUnescGo (d : Char) : List Char → Option Char → List Char → List (List Char)
  | [], _, acc => [acc.reverse]
  | c :: rest, prev, acc =>
    if c = d ∧ prev ≠ some '\\' then
      acc.reverse :: splitUnescGo d rest (some c) []
    else
      splitUnescGo d rest (some c) (c :: acc)

/-- `re.split(r'(?<!\\)d', s)` — split on unescaped delimiters
(`manual.py` lines 169, 181, 185). The backslash is NOT removed from the
tokens by the split itself. -/
def splitUnesc (d : Char) (s : List Char) : List (List Char) :=
  splitUnescGo d s none []

/-- Python `s.replace("\\" + d, d)`: leftmost non-overlapping replacement of
the two-character pattern backslash-`d` by `d` (`manual.py` line 190). -/
def replEsc (d : Char) : List Char → List Char
  | [] => []
  | [c] => [c]
  | a :: b :: rest =>
    if a = '\\' ∧ b = d then b :: replEsc d rest
    else a :: replEsc d (b :: rest)

/-- The value unescaping done by the `multi_manual` branch:
`string.replace("\\,", ",").replace("\\;", ";")` (`manual.py` line 190). -/
def unescVal (s : List Char) : List Char := replEsc ';' (replEsc ',' s)

/-- Well-formed escaping: every backslash is immediately followed by a
comma or a semicolon. -/
def wfEsc : List Char → Bool
  | [] => true
  | [a] => a ≠ '\\'
  | a :: b :: rest =>
    if a = '\\' then (b = ',' ∨ b = ';') ∧ wfEsc rest
    else wfEsc (b :: rest)

/-- Specification-side unescaping: each escaped comma/semicolon becomes the
bare delimiter, in a single pass. -/
def unescSpec : List Char → List Char
  | [] => []
  | [a] => [a]
  | a :: b :: rest =>
    if a = '\\' ∧ (b = ',' ∨ b = ';') then b :: unescSpec rest
    else a :: unescSpec (b :: rest)

/-- Python `int(s)` restricted to the non-empty all-digit strings the
source feeds it (field indices); anything else is a `ValueError`. -/
def parseDigits (s : List Char) : Option Nat :=
  if s = [] ∨ ¬ s.all (fun c => c.isDigit) then none
  else some (s.foldl (fun n c => n * 10 + (c.toNat - 48)) 0)

/-- Python `s.split(":", 1)`: split at the first colon only; `none` when
there is no colon (in which case the tuple unpacking in the source raises
`ValueError`). -/
def splitColon1 : List Char → Option (List Char × List Char)
  | [] => none
  | c :: rest =>
    if c = ':' then some ([], rest)
    else (splitColon1 rest).map (fun pr => (c :: pr.1, pr.2))

/-- One `"<index>:<value>"` entry of the `multi_manual` format
(`manual.py` lines 186–191): unpack around the first colon, parse the
index, unescape the value. -/
def parseAssignment (e : List Char) : Except String SingleInput :=
  match splitColon1 e with
  | none => .error "ValueError: not enough values to unpack"
  | some (ixs, vs) =>
    match parseDigits ixs with
    | none => .error "ValueError: invalid literal for int"
    | some n => .ok ⟨n, String.mk (unescVal vs)⟩

/-- `make_input_generator` (`manual.py` lines 137–199), materialised. The
generator raises on its first pull for the invalid combination, which a
caller consuming it observes as an error before any plan: `.error` here. -/
def make_input_generator (cfg : Config) : Except String (List (List SingleInput)) :=
  if cfg.input_type = "character_iteration" then
    .ok (character_iteration_input_generator cfg cfg.input_minlength)
  else if cfg.input_type = "fixed_strings" ∧ cfg.input_strings ≠ "" then
    .ok ((splitUnesc ',' cfg.input_strings.data).map
      (fun s => [⟨cfg.form_input_index, String.mk s⟩]))
  else if cfg.input_type = "multi_manual" ∧ cfg.input_strings ≠ "" then
    (splitUnesc ';' cfg.input_strings.data).mapM
      (fun grp => (splitUnesc ',' grp).mapM parseAssignment)
  else
    .error "Invalid input type combination supplied!"

/-- The five snapshot categories (`manual.py` lines 98–101). -/
def classes : List String :=
  ["data_pages", "error_pages", "links_to_documents", "links_to_search",
   "search_pages"]

/-- A persisted artifact, recorded instead of performed. -/
inductive WriteEvt
  | screenshot (dir : String)
  | page (dir : String) (classname : String)
deriving DecidableEq, Repr

/-- `save_screenshot` (`manual.py` lines 81–90). There is no output-dir
guard: `os.path.join(self.output_data_dir, "screenshots")` with
`output_data_dir = None` raises `TypeError` before anything is written. -/
def save_screenshot (cfg : Config) : Except String (List WriteEvt) :=
  match cfg.output_data_dir with
  | none => .error "TypeError: expected str, bytes or os.PathLike object, not NoneType"
  | some dir => .ok [.screenshot dir]

/-- `save_training_page` (`manual.py` lines 92–119): the category check
comes first and raises `ValueError` for an unknown category; only then the
missing-output-dir early return (a no-op), and otherwise one file write. -/
def save_training_page (cfg : Config) (classname : String) : Except String (List WriteEvt) :=
  if ¬ classname ∈ classes then .error ("Base class speficied: " ++ classname)
  else
    match cfg.output_data_dir with
    | none => .ok []
    | some dir => .ok [.page dir classname]

/-- Index of the first list element satisfying `p`, scanning in order —
the `for ix in range(n)` + `break` idiom of the source. -/
def firstMatchIdx {α : Type} (p : α → Bool) : List α → Option Nat
  | [] => none
  | a :: rest => if p a then some 0 else (firstMatchIdx p rest).map (· + 1)

/-- The first button whose (lowercased) text contains the lowercased
`next_match` (`manual.py` lines 225–240): the index the scan clicks. -/
def firstNextIdx (cfg : Config) (buttons : List String) : Option Nat :=
  firstMatchIdx (fun b => textContains cfg.next_match b) buttons

/-- The `while True` loop of `keep_clicking_next_btns` (`manual.py` lines
208–244).  `pages p` gives the button text vectors of the page reached
after `p` clicks; `depth` is the hop counter.  Returns the final hop count
together with the list of clicked button indices, `.error` when one of the
persistence calls raises, and `none` when the fuel runs out (the Python
loop has no intrinsic bound). -/
def kcnbLoop (cfg : Config) (pages : Nat → List String) :
    Nat → Nat → Nat → Option (Except String (Nat × List Nat))
  | 0, _, _ => none
  | fuel + 1, p, depth =>
    if cfg.formdepth ≠ 0 ∧ depth > cfg.formdepth then some (.ok (depth, []))
    else
      match save_training_page cfg "data_pages" with
      | .error e => some (.error e)
      | .ok _ =>
        match save_screenshot cfg with
        | .error e => some (.error e)
        | .ok _ =>
          match firstNextIdx cfg (pages p) with
          | some ix =>
            match save_training_page cfg "data_pages" with
            | .error e => some (.error e)
            | .ok _ =>
              match save_screenshot cfg with
              | .error e => some (.error e)
              | .ok _ =>
                (kcnbLoop cfg pages fuel (p + 1) (depth + 1)).map
                  (fun r => r.map (fun pr => (pr.1, ix :: pr.2)))
          | none => some (.ok (depth, []))

/-- The observable outcome of one `keep_clicking_next_btns` call. -/
structure KcnbRes where
  hops : Nat
  clicks : List Nat
  backs : Nat
deriving DecidableEq, Repr

/-- `keep_clicking_next_btns` (`manual.py` lines 201–248).  The `maxdepth`
parameter is declared (and `run` passes `maxdepth=3`) but the body never
reads it: the loop is capped by `self.formdepth` alone.  After the loop,
`for _ in range(depth)` issues one `back()` per hop. -/
def keep_clicking_next_btns (cfg : Config) (maxdepth : Nat)
    (pages : Nat → List String) (fuel : Nat) : Option (Except String KcnbRes) :=
  (kcnbLoop cfg pages fuel 0 0).map
    (fun r => r.map (fun pr => ⟨pr.1, pr.2, pr.1⟩))

/-- How a `run` frame stopped without returning: the `sys.exit(0)` success
path, a propagated exception, or (model artifact) exhausted fuel inside a
pagination burst. -/
inductive Halt
  | exited
  | raised (msg : String)
  | fuelOut
deriving DecidableEq, Repr

/-- The plan loop over a matched form (`manual.py` lines 284–298): per
plan, fill the inputs, screenshot, submit, screenshot, run the pagination
burst (with the `maxdepth=3` argument), then one `back()`.  Returns the
number of completed plans (= the `back()` calls this loop issued) and the
halt, if any.  `pag k` is the pagination world the submit of plan `k`
lands in. -/
def planLoop (cfg : Config) (pag : Nat → Nat → List String) (fuel : Nat) :
    List (List SingleInput) → Nat → Nat × Option Halt
  | [], _ => (0, none)
  | _plan :: rest, k =>
    match save_screenshot cfg with
    | .error e => (0, some (.raised e))
    | .ok _ =>
      match save_screenshot cfg with
      | .error e => (0, some (.raised e))
      | .ok _ =>
        match keep_clicking_next_btns cfg 3 (pag k) fuel with
        | none => (0, some .fuelOut)
        | some (.error e) => (0, some (.raised e))
        | some (.ok _) =>
          let pr := planLoop cfg pag fuel rest (k + 1)
          (pr.1 + 1, pr.2)

/-- Outcome of the form scan (`manual.py` lines 261–306). -/
inductive FormOut
  | halted (h : Halt) (backs : Nat) (scraped : List Nat)
  | fellThrough
deriving DecidableEq, Repr

/-- The form loop of `run` (`manual.py` lines 261–306): skip forms whose
text does not contain `form_match`; on the first match snapshot the page,
drive every input plan, and — since the generator either raises or yields
at least one plan, setting `scraped` — exit the process via `sys.exit(0)`.
The continuing branch (empty plan list) keeps `scraped = False`, so it
scans the remaining forms exactly as the source loop does. -/
def formLoop (cfg : Config) (pag : Nat → Nat → List String) (fuel : Nat) :
    List String → Nat → FormOut
  | [], _ => .fellThrough
  | f :: rest, ix =>
    if textContains cfg.form_match f = false then formLoop cfg pag fuel rest (ix + 1)
    else
      match save_training_page cfg "search_pages" with
      | .error e => .halted (.raised e) 0 []
      | .ok _ =>
        match save_screenshot cfg with
        | .error e => .halted (.raised e) 0 []
        | .ok _ =>
          match make_input_generator cfg with
          | .error e => .halted (.raised e) 0 []
          | .ok plans =>
            match planLoop cfg pag fuel plans 0 with
            | (b, some x) => .halted x b (if b > 0 then [ix] else [])
            | (b, none) =>
              if plans ≠ [] then .halted .exited b [ix]
              else formLoop cfg pag fuel rest (ix + 1)

/-- The Python stable sort `link_zip.sort(key=..., reverse=True)`
(`manual.py` lines 312–316) with a boolean key: priority-matching links
first, original relative order preserved within each partition. -/
def rankLinks (cfg : Config) (links : List String) : List (Nat × String) :=
  let zipped := (List.range links.length).zip links
  zipped.filter (fun r => linkKeyMatch cfg.link_priority r.2)
    ++ zipped.filter (fun r => ¬ linkKeyMatch cfg.link_priority r.2)

/-- The link loop of `run` (`manual.py` lines 317–324): per candidate, if
at `maxdepth` stop scanning entirely; otherwise try the click — `clickOk`
is `select_link`'s success flag — and on success recurse, `sub ix` being
the halt (if any) of the recursive subtree.  Returns the successfully
followed links in order and the propagated halt. -/
def linkLoop (cfg : Config) (depth : Nat) (clickOk : Nat → Bool)
    (sub : Nat → Option Halt) : List Nat → List Nat × Option Halt
  | [] => ([], none)
  | ix :: rest =>
    if depth = cfg.maxdepth then ([], none)
    else if clickOk ix then
      match sub ix with
      | some h => ([ix], some h)
      | none =>
        let pr := linkLoop cfg depth clickOk sub rest
        (ix :: pr.1, pr.2)
    else linkLoop cfg depth clickOk sub rest

/-- The element text vectors of one crawl page, plus `select_link`'s
success per link index. -/
structure Page where
  forms : List String
  links : List String
  clickOk : Nat → Bool

/-- The observable effects of one `run` frame: the links it followed, the
forms it submitted plans to, the `back()` calls the frame itself issued
(the pagination burst's own backs are inside `keep_clicking_next_btns`),
and how the frame stopped (`none` = returned normally). -/
structure FrameRes where
  followed : List Nat
  scraped : List Nat
  backs : Nat
  halt : Option Halt
deriving DecidableEq, Repr

/-- One frame of `run` (`manual.py` lines 250–327): terminal depth check
(one `back()` and return), screenshot, form scan, ranked link loop, final
`back()`.  The recursive descent of a followed link is abstracted by
`sub`, which reports whether that subtree halted the process; per the
undo invariant, a normally returning subtree restores the page. -/
def runFrame (cfg : Config) (page : Page) (pag : Nat → Nat → List String)
    (sub : Nat → Option Halt) (fuel : Nat) (depth : Nat) : FrameRes :=
  if depth > cfg.maxdepth then ⟨[], [], 1, none⟩
  else
    match save_screenshot cfg with
    | .error e => ⟨[], [], 0, some (.raised e)⟩
    | .ok _ =>
      match formLoop cfg pag fuel page.forms 0 with
      | .halted h b sc => ⟨[], sc, b, some h⟩
      | .fellThrough =>
        let ordered := (rankLinks cfg page.links).map (fun r => r.1)
        let pr := linkLoop cfg depth page.clickOk sub ordered
        match pr.2 with
        | some x => ⟨pr.1, [], 0, some x⟩
        | none => ⟨pr.1, [], 1, none⟩

-- sanity checks (development anchors)
example : textContains "first name" "Enter your First Name here" = true := by decide
example : textContains "next page" "no buttons" = false := by decide
example : linkKeyMatch "Search" "search results" = false := by decide
example : linkKeyMatch "search" "Search results" = true := by decide
example : splitUnesc ',' "a,b\\,c,d".data = ["a".data, "b\\,c".data, "d".data] := by decide
example : unescVal "b\\,c\\;d".data = "b,c;d".data := by decide
example : parseAssignment "0:foo".data = .ok ⟨0, "foo"⟩ := by decide
example :
    make_input_generator { defaults with input_type := "multi_manual", input_strings := "0:foo,1:bar;0:baz" }
      = .ok [[⟨0, "foo"⟩, ⟨1, "bar"⟩], [⟨0, "baz"⟩]] := by decide
example : pyProduct ['a', 'b'] 2 = [['a','a'], ['a','b'], ['b','a'], ['b','b']] := by decide
example :
    character_iteration_input_generator { defaults with form_input_range := some "ab", wildcard := some "%" } 1
      = [[⟨0, "a%"⟩], [⟨0, "b%"⟩]] := by decide

-- pagination follower: 2 matching pages then none, formdepth 0 → 2 hops, 2 backs
example :
    keep_clicking_next_btns { defaults with output_data_dir := some "out" } 3
      (fun p => if p < 2 then ["go to Next Page 2"] else []) 10
      = some (.ok ⟨2, [0, 0], 2⟩) := by decide

-- the dead maxdepth argument: 5 matching pages, formdepth 0 → 5 hops despite maxdepth=3
example :
    keep_clicking_next_btns { defaults with output_data_dir := some "out" } 3
      (fun p => if p < 5 then ["go to Next Page"] else []) 10
      = some (.ok ⟨5, [0, 0, 0, 0, 0], 5⟩) := by decide

-- run frame at maxdepth: no links followed, one back
example :
    runFrame { defaults with output_data_dir := some "out" }
      ⟨[], ["About", "Search results"], fun _ => true⟩ (fun _ _ => []) (fun _ => none) 5 10
      = ⟨[], [], 1, none⟩ := by decide

-- run frame with a matching form: exits after the plans, one back per plan
example :
    runFrame { defaults with output_data_dir := some "out", input_type := "fixed_strings", input_strings := "x,y" }
      ⟨["enter your First Name"], ["somewhere"], fun _ => true⟩ (fun _ _ => []) (fun _ => none) 5 0
      = ⟨[], [0], 2, some .exited⟩ := by decide

/-- A pagination world with `n` consecutive pages carrying a "next page"
control, followed by a page with none. -/
def nextChain (n : Nat) : Nat → List String :=
  fun p => if p < n then ["go to Next Page"] else []

/-- C1: the claim says the post-submit pagination burst is capped by a
small fixed bound (the `maxdepth=3` argument) distinct from `formdepth`.
The code never reads that parameter: `keep_clicking_next_btns` is
literally independent of its `maxdepth` argument, and with the default
`formdepth = 0` a five-page next chain is followed for all five hops even
though `run` passes `maxdepth=3`. -/
theorem c1_post_submit_cap_is_dead_parameter :
    (∀ (cfg : Config) (md md' : Nat) (pages : Nat → List String) (fuel : Nat),
        keep_clicking_next_btns cfg md pages fuel
          = keep_clicking_next_btns cfg md' pages fuel)
  ∧ keep_clicking_next_btns { defaults with output_data_dir := some "out" } 3
      (nextChain 5) 10 = some (.ok ⟨5, [0, 0, 0, 0, 0], 5⟩)
  ∧ 3 < 5 :=
  ⟨fun _ _ _ _ _ => rfl, by decide, by decide⟩

/-- The configuration of the C2 test vector: `fixed_strings` with the
payload `a,b\,c,d`. -/
def c2Cfg : Config :=
  { defaults with input_type := "fixed_strings", input_strings := "a,b\\,c,d" }

/-- C2 counterexample: the claim says the `fixed_strings` generator on
`a,b\,c,d` yields the values `a`, `b,c`, `d` — but the code never removes
the backslash, so the middle value is `b\,c`, not `b,c`. -/
theorem c2_fixed_strings_counterexample :
    make_input_generator c2Cfg
      ≠ .ok [[⟨0, "a"⟩], [⟨0, "b,c"⟩], [⟨0, "d"⟩]] := by decide

/-- C2 amended: `fixed_strings` on `a,b\,c,d` yields exactly three plans,
each a single assignment to `formInputIndex`, with values `a`, `b\,c`,
`d` in that order: the escaped comma is not split on, but the backslash
escape is kept verbatim in the value. -/
theorem c2_fixed_strings_amended :
    make_input_generator c2Cfg
      = .ok [[⟨0, "a"⟩], [⟨0, "b\\,c"⟩], [⟨0, "d"⟩]]
  ∧ ("b\\,c" : String) ≠ "b,c" :=
  ⟨by decide, by decide⟩

/-- C3: the claim says both snapshot writers are no-ops when no output
directory is configured.  True for `save_training_page` (explicit early
return), but `save_screenshot` has no such guard: it immediately calls
`os.path.join(self.output_data_dir, "screenshots")`, which raises
`TypeError` on `None`.  `defaults` has `output_data_dir = None`. -/
theorem c3_screenshot_raises_without_output_dir :
    defaults.output_data_dir = none
  ∧ save_screenshot defaults
      = .error "TypeError: expected str, bytes or os.PathLike object, not NoneType"
  ∧ save_training_page defaults "data_pages" = .ok [] := by
  refine ⟨rfl, by decide, by decide⟩

/-- C9: configuration errors are fatal at the point of use —
`fixed_strings` or `multi_manual` with an empty payload and any unknown
`input_type` make the plan generator raise before yielding any plan, and
an unknown snapshot category makes `save_training_page` raise (before the
missing-output-dir check). -/
theorem c9_config_errors_fatal (cfg : Config) (c : String) :
    (cfg.input_type = "fixed_strings" → cfg.input_strings = "" →
        make_input_generator cfg = .error "Invalid input type combination supplied!")
  ∧ (cfg.input_type = "multi_manual" → cfg.input_strings = "" →
        make_input_generator cfg = .error "Invalid input type combination supplied!")
  ∧ (¬ cfg.input_type ∈ ["character_iteration", "fixed_strings", "multi_manual"] →
        make_input_generator cfg = .error "Invalid input type combination supplied!")
  ∧ (¬ c ∈ classes → save_training_page cfg c = .error ("Base class speficied: " ++ c)) := by
  refine ⟨fun ht hs => ?_, fun ht hs => ?_, fun h => ?_, fun h => ?_⟩
  · simp [make_input_generator, ht, hs]
  · simp [make_input_generator, ht, hs]
  · simp only [List.mem_cons, List.not_mem_nil, or_false] at h
    push_neg at h
    obtain ⟨h1, h2, h3⟩ := h
    simp [make_input_generator, h1, h2, h3]
  · simp [save_training_page, h]

/-- C9 witness: the three generator misconfigurations and an unknown
snapshot category, all at concrete inputs. -/
theorem c9_config_errors_fatal_witness :
    make_input_generator { defaults with input_type := "fixed_strings" }
      = .error "Invalid input type combination supplied!"
  ∧ make_input_generator { defaults with input_type := "multi_manual" }
      = .error "Invalid input type combination supplied!"
  ∧ make_input_generator { defaults with input_type := "drop_down_iteration" }
      = .error "Invalid input type combination supplied!"
  ∧ save_training_page defaults "bogus_pages"
      = .error ("Base class speficied: " ++ "bogus_pages") :=
  ⟨(c9_config_errors_fatal _ "x").1 rfl rfl,
   (c9_config_errors_fatal _ "x").2.1 rfl rfl,
   (c9_config_errors_fatal _ "x").2.2.1 (by decide),
   (c9_config_errors_fatal _ "bogus_pages").2.2.2 (by decide)⟩

/-- A non-backslash head commutes with one `replace` pass. -/
lemma replEsc_cons_ne (d c : Char) (s : List Char) (hc : c ≠ '\\') :
    replEsc d (c :: s) = c :: replEsc d s := by
  cases s with
  | nil => rfl
  | cons b rest => simp [replEsc, hc]

/-- On well-escaped input, the two sequential `str.replace` passes of the
source unescape every `\,` and `\;` exactly as the one-pass specification
does. -/
lemma unescVal_eq_unescSpec_aux :
    ∀ (n : Nat) (s : List Char), s.length ≤ n → wfEsc s = true →
      unescVal s = unescSpec s := by
  intro n
  induction n with
  | zero =>
    intro s hlen _
    cases s with
    | nil => rfl
    | cons a r => simp at hlen
  | succ n IH =>
    intro s hlen hwf
    match s with
    | [] => rfl
    | [a] => rfl
    | a :: b :: r =>
      by_cases ha : a = '\\'
      · subst ha
        have hwf' : (b = ',' ∨ b = ';') ∧ wfEsc r = true := by
          simpa [wfEsc] using hwf
        obtain ⟨hb, hr⟩ := hwf'
        have hlr : r.length ≤ n := by
          simp only [List.length_cons] at hlen
          omega
        have hrec : unescVal r = unescSpec r := IH r hlr hr
        cases hb with
        | inl hb =>
          subst hb
          have h1 : replEsc ',' ('\\' :: ',' :: r) = ',' :: replEsc ',' r := by
            simp [replEsc]
          have h2 : unescSpec ('\\' :: ',' :: r) = ',' :: unescSpec r := by
            simp [unescSpec]
          rw [unescVal, h1, replEsc_cons_ne ';' ',' _ (by decide), h2]
          exact congrArg _ hrec
        | inr hb =>
          subst hb
          have h1 : replEsc ',' ('\\' :: ';' :: r) = '\\' :: ';' :: replEsc ',' r := by
            rw [show replEsc ',' ('\\' :: ';' :: r) = '\\' :: replEsc ',' (';' :: r) by
              simp [replEsc]]
            rw [replEsc_cons_ne ',' ';' _ (by decide)]
          have h2 : unescSpec ('\\' :: ';' :: r) = ';' :: unescSpec r := by
            simp [unescSpec]
          have h3 : replEsc ';' ('\\' :: ';' :: replEsc ',' r)
              = ';' :: replEsc ';' (replEsc ',' r) := by
            simp [replEsc]
          rw [unescVal, h1, h3, h2]
          exact congrArg _ hrec
      · have hwf' : wfEsc (b :: r) = true := by
          simpa [wfEsc, ha] using hwf
        have hlr : (b :: r).length ≤ n := by
          simp only [List.length_cons] at hlen ⊢
          omega
        have hrec : unescVal (b :: r) = unescSpec (b :: r) := IH (b :: r) hlr hwf'
        have h2 : unescSpec (a :: b :: r) = a :: unescSpec (b :: r) := by
          simp [unescSpec, ha]
        rw [unescVal, replEsc_cons_ne ',' a _ ha, replEsc_cons_ne ';' a _ ha, h2]
        exact congrArg _ hrec

/-- Unescaping on well-escaped values, without the length bookkeeping. -/
lemma unescVal_eq_unescSpec (s : List Char) (hwf : wfEsc s = true) :
    unescVal s = unescSpec s :=
  unescVal_eq_unescSpec_aux s.length s (Nat.le.refl) hwf

/-- The configuration of the C8 test vector. -/
def mmCfg : Config :=
  { defaults with input_type := "multi_manual", input_strings := "0:foo,1:bar;0:baz" }

/-- C8: `multi_manual` on `0:foo,1:bar;0:baz` yields exactly the two plans
`[{0,foo},{1,bar}]` then `[{0,baz}]`; and on every well-escaped value the
two `replace` passes the code applies turn each escaped `\,` / `\;` into
the bare delimiter (the one-pass specification `unescSpec`). -/
theorem c8_multi_manual_plans :
    make_input_generator mmCfg = .ok [[⟨0, "foo"⟩, ⟨1, "bar"⟩], [⟨0, "baz"⟩]]
  ∧ ∀ raw : List Char, wfEsc raw = true → unescVal raw = unescSpec raw :=
  ⟨by decide, fun raw h => unescVal_eq_unescSpec raw h⟩

/-- C8 witness: the concrete plans plus unescaping of a concrete
well-escaped value. -/
theorem c8_multi_manual_plans_witness :
    make_input_generator mmCfg = .ok [[⟨0, "foo"⟩, ⟨1, "bar"⟩], [⟨0, "baz"⟩]]
  ∧ unescVal "a\\,b\\;c".data = unescSpec "a\\,b\\;c".data :=
  ⟨c8_multi_manual_plans.1, c8_multi_manual_plans.2 _ (by decide)⟩

/-- `Char.ofNat` below the surrogate range round-trips through `toNat`. -/
lemma toNat_ofNat_small (n : Nat) (h : n < 55296) : (Char.ofNat n).toNat = n := by
  unfold Char.ofNat
  rw [dif_pos (Or.inl h)]
  rfl

/-- Lowercasing never produces an ASCII uppercase letter. -/
lemma lowerChar_not_upper (d : Char) :
    ¬ (65 ≤ (lowerChar d).toNat ∧ (lowerChar d).toNat ≤ 90) := by
  unfold lowerChar
  by_cases h : 65 ≤ d.toNat ∧ d.toNat ≤ 90
  · rw [if_pos h, toNat_ofNat_small (d.toNat + 32) (by omega)]
    omega
  · rw [if_neg h]
    exact h

/-- A successful substring test puts every needle character in the
haystack. -/
lemma containsSub_subset {needle hay : List Char}
    (h : containsSub needle hay = true) : ∀ c ∈ needle, c ∈ hay := by
  unfold containsSub at h
  rw [List.any_eq_true] at h
  obtain ⟨t, ht, hp⟩ := h
  rw [List.mem_tails] at ht
  rw [ List.isPrefixOf_iff_prefix] at hp
  obtain ⟨u, hu⟩ := hp
  obtain ⟨v, hv⟩ := ht
  intro c hc
  rw [← hv, ← hu]
  simp [hc]

/-- C10: the link-priority ranking key lowercases only the link text, not
the configured `linkPriority`, so a priority containing an ASCII uppercase
character matches no link at all and the ranking degenerates to the
original order; the form/next matchers (`textContains`) lowercase both
sides, so the same mixed-case needle still matches there. -/
theorem c10_link_priority_not_lowercased (lp : String) (c : Char)
    (hmem : c ∈ lp.data) (hup : 65 ≤ c.toNat ∧ c.toNat ≤ 90) :
    (∀ text, linkKeyMatch lp text = false)
  ∧ (∀ links, rankLinks { defaults with link_priority := lp } links
        = (List.range links.length).zip links)
  ∧ linkKeyMatch "Search" "Search results" = false
  ∧ textContains "Search" "Search results" = true := by
  have hkey : ∀ text, linkKeyMatch lp text = false := by
    intro text
    by_contra hne
    have htrue : linkKeyMatch lp text = true := by
      cases hcase : linkKeyMatch lp text with
      | false => exact absurd hcase hne
      | true => rfl
    have hc : c ∈ lowerList text.data := containsSub_subset htrue c hmem
    obtain ⟨d, _, hd⟩ := List.mem_map.mp hc
    exact lowerChar_not_upper d (hd ▸ hup)
  refine ⟨hkey, fun links => ?_, by decide, by decide⟩
  unfold rankLinks
  have h1 : ((List.range links.length).zip links).filter
      (fun r => linkKeyMatch lp r.2) = [] := by
    rw [List.filter_eq_nil_iff]
    intro a _
    simp [hkey a.2]
  have h2 : ((List.range links.length).zip links).filter
      (fun r => ¬ linkKeyMatch lp r.2) = (List.range links.length).zip links := by
    rw [List.filter_eq_self]
    intro a _
    simp [hkey a.2]
  simp only []
  rw [h1, h2, List.nil_append]

/-- C10 witness: `linkPriority = "Search"` ranks nothing as a priority
match — even a link literally containing `Search` — while the two-sided
lowercased matcher still fires. -/
theorem c10_link_priority_not_lowercased_witness :
    linkKeyMatch "Search" "Search engine" = false
  ∧ rankLinks { defaults with link_priority := "Search" }
      ["About", "Search results", "Home"]
      = [(0, "About"), (1, "Search results"), (2, "Home")]
  ∧ linkKeyMatch "Search" "Search results" = false
  ∧ textContains "Search" "Search results" = true := by
  have h := c10_link_priority_not_lowercased "Search" 'S' (by decide) (by decide)
  exact ⟨h.1 "Search engine", by rw [h.2.1]; decide, h.2.2.1, h.2.2.2⟩

/-- With an output directory configured, `save_screenshot` writes one file. -/
lemma save_screenshot_ok (cfg : Config) (d : String)
    (hdir : cfg.output_data_dir = some d) :
    save_screenshot cfg = .ok [.screenshot d] := by
  simp [save_screenshot, hdir]

/-- With an output directory configured, `save_training_page` on a known
category writes one file. -/
lemma save_training_page_ok (cfg : Config) (cn d : String)
    (hdir : cfg.output_data_dir = some d) (hcn : cn ∈ classes) :
    save_training_page cfg cn = .ok [.page d cn] := by
  simp [save_training_page, hdir, hcn]

/-- The core loop invariant of the Pagination Follower: if the pages at
offsets `p, p+1, …, p+k-1` each carry a next-matching control (at the
indices given by `ixs`) and the page at offset `p+k` carries none, and the
`formdepth` cap does not cut the chain short, then the loop performs
exactly `k` further hops, clicking the first matching control each time. -/
lemma kcnbLoop_spec (cfg : Config) (pages : Nat → List String) (ixs : Nat → Nat)
    (d : String) (hdir : cfg.output_data_dir = some d) :
    ∀ (k p dep fuel : Nat),
      (∀ i, i < k → firstNextIdx cfg (pages (p + i)) = some (ixs (p + i))) →
      firstNextIdx cfg (pages (p + k)) = none →
      (cfg.formdepth = 0 ∨ dep + k ≤ cfg.formdepth) →
      k < fuel →
      kcnbLoop cfg pages fuel p dep
        = some (.ok (dep + k, (List.range k).map (fun i => ixs (p + i)))) := by
  intro k
  induction k with
  | zero =>
    intro p dep fuel hmatch hstop hbound hfuel
    obtain ⟨fuel, rfl⟩ : ∃ f, fuel = f + 1 := ⟨fuel - 1, by omega⟩
    have hcap : ¬ (cfg.formdepth ≠ 0 ∧ dep > cfg.formdepth) := by
      rcases hbound with h0 | hle
      · simp [h0]
      · intro hand
        omega
    rw [Nat.add_zero] at hstop
    simp only [kcnbLoop]
    rw [if_neg hcap, save_training_page_ok cfg "data_pages" d hdir (by decide),
      save_screenshot_ok cfg d hdir, hstop]
    simp
  | succ k IH =>
    intro p dep fuel hmatch hstop hbound hfuel
    obtain ⟨fuel, rfl⟩ : ∃ f, fuel = f + 1 := ⟨fuel - 1, by omega⟩
    have hcap : ¬ (cfg.formdepth ≠ 0 ∧ dep > cfg.formdepth) := by
      rcases hbound with h0 | hle
      · simp [h0]
      · intro hand
        omega
    have h0 : firstNextIdx cfg (pages p) = some (ixs p) := by
      have := hmatch 0 (by omega)
      simpa using this
    have hrec : kcnbLoop cfg pages fuel (p + 1) (dep + 1)
        = some (.ok ((dep + 1) + k, (List.range k).map (fun i => ixs ((p + 1) + i)))) := by
      refine IH (p + 1) (dep + 1) fuel ?_ ?_ ?_ (by omega)
      · intro i hi
        rw [show p + 1 + i = p + (i + 1) by omega]
        exact hmatch (i + 1) (by omega)
      · rw [show p + 1 + k = p + (k + 1) by omega]
        exact hstop
      · rcases hbound with hb | hb
        · exact Or.inl hb
        · exact Or.inr (by omega)
    simp only [kcnbLoop]
    rw [if_neg hcap, save_training_page_ok cfg "data_pages" d hdir (by decide),
      save_screenshot_ok cfg d hdir, h0]
    simp only [hrec, Option.map, Except.map]
    refine congrArg _ (congrArg _ ?_)
    refine congrArg₂ _ (by omega) ?_
    rw [List.range_succ_eq_map, List.map_cons, List.map_map]
    refine congrArg₂ _ (by rw [Nat.add_zero]) ?_
    refine List.map_congr_left ?_
    intro i _
    simp only [Function.comp]
    rw [show p + 1 + i = p + (i + 1) by omega]

/-- C5: when the pages reached by hops `0, …, N-1` each carry a
next-matching control and the page after the `N`-th hop carries none, the
Pagination Follower performs exactly `N` forward hops — clicking only the
first matching control of each page — and then exactly `N` backward
navigations, both under the `formdepth = 0` sentinel (unbounded) and under
any `formdepth ≥ N`; the `maxdepth` argument `md` is irrelevant. -/
theorem c5_pagination_hops_and_backs (cfg : Config) (pages : Nat → List String)
    (ixs : Nat → Nat) (d : String) (N fuel md : Nat)
    (hdir : cfg.output_data_dir = some d)
    (hmatch : ∀ i, i < N → firstNextIdx cfg (pages i) = some (ixs i))
    (hstop : firstNextIdx cfg (pages N) = none)
    (hbound : cfg.formdepth = 0 ∨ N ≤ cfg.formdepth)
    (hfuel : N < fuel) :
    keep_clicking_next_btns cfg md pages fuel
      = some (.ok ⟨N, (List.range N).map ixs, N⟩) := by
  unfold keep_clicking_next_btns
  rw [kcnbLoop_spec cfg pages ixs d hdir N 0 0 fuel
    (by simpa using hmatch) (by simpa using hstop) (by simpa using hbound) hfuel]
  simp [Except.map]

/-- C5 witness: a two-page next chain under the default `formdepth = 0`:
two hops, two backs, first button clicked each time. -/
theorem c5_pagination_hops_and_backs_witness :
    keep_clicking_next_btns { defaults with output_data_dir := some "out" } 3
      (nextChain 2) 10 = some (.ok ⟨2, [0, 0], 2⟩) := by
  have h := c5_pagination_hops_and_backs
    { defaults with output_data_dir := some "out" } (nextChain 2) (fun _ => 0)
    "out" 2 10 3 rfl (by decide) (by decide) (Or.inl rfl) (by omega)
  rw [h]
  decide

/-- C6: whenever the Crawl Engine is invoked at `depth = maxDepth`, the
link loop breaks before any click, so no link is followed and no recursion
occurs, whatever the page holds; and on every normally returning such
invocation the frame issues exactly one backward navigation. -/
theorem c6_maxdepth_no_links_one_back (cfg : Config) (page : Page)
    (pag : Nat → Nat → List String) (sub : Nat → Option Halt) (fuel : Nat) :
    (runFrame cfg page pag sub fuel cfg.maxdepth).followed = []
  ∧ ((runFrame cfg page pag sub fuel cfg.maxdepth).halt = none →
      (runFrame cfg page pag sub fuel cfg.maxdepth).backs = 1) := by
  have hlink : ∀ l, linkLoop cfg cfg.maxdepth page.clickOk sub l = ([], none) := by
    intro l
    cases l with
    | nil => rfl
    | cons ix rest => simp [linkLoop]
  unfold runFrame
  rw [if_neg (by omega : ¬ cfg.maxdepth > cfg.maxdepth)]
  cases hs : save_screenshot cfg with
  | error e => simp
  | ok w =>
    cases hf : formLoop cfg pag fuel page.forms 0 with
    | halted h b sc => simp
    | fellThrough => simp [hlink]

/-- C6 witness: a concrete frame at `depth = maxdepth` that returns
normally: no link followed, exactly one back. -/
theorem c6_maxdepth_no_links_one_back_witness :
    (runFrame { defaults with output_data_dir := some "out" }
        ⟨[], ["About", "Search results"], fun _ => true⟩
        (fun _ _ => []) (fun _ => none) 5 10).followed = []
  ∧ (runFrame { defaults with output_data_dir := some "out" }
        ⟨[], ["About", "Search results"], fun _ => true⟩
        (fun _ _ => []) (fun _ => none) 5 10).backs = 1 := by
  have h := c6_maxdepth_no_links_one_back { defaults with output_data_dir := some "out" }
    ⟨[], ["About", "Search results"], fun _ => true⟩ (fun _ _ => []) (fun _ => none) 5
  exact ⟨h.1, h.2 (by decide)⟩

/-- If the first `form_match`-matching form of the scan is at index `j`
and its plans run to completion, the form loop exits the process there:
later forms are never scraped. -/
lemma formLoop_first_match (cfg : Config) (pag : Nat → Nat → List String)
    (fuel b : Nat) (d : String) (plans : List (List SingleInput))
    (hdir : cfg.output_data_dir = some d)
    (hplans : make_input_generator cfg = .ok plans)
    (hne : plans ≠ [])
    (hterm : planLoop cfg pag fuel plans 0 = (b, none)) :
    ∀ (forms : List String) (ix j : Nat),
      firstMatchIdx (fun f => textContains cfg.form_match f) forms = some j →
      formLoop cfg pag fuel forms ix = .halted .exited b [ix + j] := by
  intro forms
  induction forms with
  | nil =>
    intro ix j h
    simp [firstMatchIdx] at h
  | cons f rest IH =>
    intro ix j h
    simp only [firstMatchIdx] at h
    by_cases hf : textContains cfg.form_match f = true
    · rw [if_pos hf] at h
      obtain rfl : j = 0 := by
        cases h
        rfl
      simp only [formLoop, hf]
      rw [if_neg (by simp), save_training_page_ok cfg "search_pages" d hdir (by decide),
        save_screenshot_ok cfg d hdir, hplans]
      simp [hterm, hne]
    · have hf' : textContains cfg.form_match f = false := by
        cases hc : textContains cfg.form_match f with
        | false => rfl
        | true => exact absurd hc hf
      rw [if_neg (by simp [hf'])] at h
      obtain ⟨j', hj', rfl⟩ : ∃ j',
          firstMatchIdx (fun g => textContains cfg.form_match g) rest = some j'
            ∧ j = j' + 1 := by
        cases hr : firstMatchIdx (fun g => textContains cfg.form_match g) rest with
        | none => rw [hr] at h; simp at h
        | some v =>
          rw [hr] at h
          refine ⟨v, rfl, ?_⟩
          have h2 : some (v + 1) = some j := by simpa using h
          cases h2
          rfl
      simp only [formLoop, hf']
      rw [if_pos trivial]
      rw [IH (ix + 1) j' hj']
      rw [show ix + 1 + j' = ix + (j' + 1) by omega]

/-- C7: at any depth within bounds, once a form matches and its plan list
runs to completion with at least one plan, the frame stops the whole
process via `sys.exit(0)` — it never returns normally, never scrapes a
second form, and never follows a link after the successful scrape. -/
theorem c7_success_exits_whole_crawl (cfg : Config) (page : Page)
    (pag : Nat → Nat → List String) (sub : Nat → Option Halt)
    (fuel depth j b : Nat) (d : String) (plans : List (List SingleInput))
    (hdepth : depth ≤ cfg.maxdepth)
    (hdir : cfg.output_data_dir = some d)
    (hform : firstMatchIdx (fun f => textContains cfg.form_match f) page.forms = some j)
    (hplans : make_input_generator cfg = .ok plans)
    (hne : plans ≠ [])
    (hterm : planLoop cfg pag fuel plans 0 = (b, none)) :
    runFrame cfg page pag sub fuel depth = ⟨[], [j], b, some .exited⟩ := by
  unfold runFrame
  rw [if_neg (by omega), save_screenshot_ok cfg d hdir,
    formLoop_first_match cfg pag fuel b d plans hdir hplans hne hterm page.forms 0 j hform]
  simp

/-- The configuration of the C7 witness run. -/
def c7Cfg : Config :=
  { defaults with output_data_dir := some "out", input_type := "fixed_strings", input_strings := "x" }

/-- C7 witness: one matched form, one fixed-string plan, no pagination:
the frame exits the process, having scraped exactly form 0 and followed
no link. -/
theorem c7_success_exits_whole_crawl_witness :
    runFrame c7Cfg ⟨["enter your First Name"], ["somewhere"], fun _ => true⟩
      (fun _ _ => []) (fun _ => none) 3 0
      = ⟨[], [0], 1, some .exited⟩ :=
  c7_success_exits_whole_crawl c7Cfg
    ⟨["enter your First Name"], ["somewhere"], fun _ => true⟩
    (fun _ _ => []) (fun _ => none) 3 0 0 1 "out" [[⟨0, "x"⟩]]
    (by decide) rfl (by decide) (by decide) (by decide) (by decide)

/-- One `prependAll` layer multiplies the word count by the alphabet size. -/
lemma length_prependAll (cs : List Char) (ws : List (List Char)) :
    (prependAll cs ws).length = cs.length * ws.length := by
  induction cs with
  | nil => simp [prependAll]
  | cons c cs' IH =>
    simp only [prependAll, List.length_append, List.length_map, IH,
      List.length_cons, Nat.succ_mul]
    ring

/-- The Cartesian power enumerates exactly `|A| ^ n` words. -/
lemma length_pyProduct (cs : List Char) (n : Nat) :
    (pyProduct cs n).length = cs.length ^ n := by
  induction n with
  | zero => simp [pyProduct]
  | succ n IH =>
    rw [pyProduct, length_prependAll, IH, pow_succ]
    ring

/-- Membership in one `prependAll` layer. -/
lemma mem_prependAll {cs : List Char} {ws : List (List Char)} {w : List Char} :
    w ∈ prependAll cs ws ↔ ∃ c ∈ cs, ∃ v ∈ ws, w = c :: v := by
  induction cs with
  | nil => simp [prependAll]
  | cons c cs' IH =>
    simp only [prependAll, List.mem_append, List.mem_map, IH, List.mem_cons]
    constructor
    · rintro (⟨v, hv, rfl⟩ | ⟨c', hc', v, hv, rfl⟩)
      · exact ⟨c, Or.inl rfl, v, hv, rfl⟩
      · exact ⟨c', Or.inr hc', v, hv, rfl⟩
    · rintro ⟨c', hc' | hc', v, hv, rfl⟩
      · exact Or.inl ⟨v, hv, by rw [hc']⟩
      · exact Or.inr ⟨c', hc', v, hv, rfl⟩

/-- The words of the Cartesian power are exactly the length-`n` words over
the alphabet. -/
lemma mem_pyProduct {cs : List Char} {n : Nat} {w : List Char} :
    w ∈ pyProduct cs n ↔ w.length = n ∧ ∀ c ∈ w, c ∈ cs := by
  induction n generalizing w with
  | zero =>
    simp only [pyProduct, List.mem_singleton]
    constructor
    · rintro rfl
      simp
    · rintro ⟨hl, _⟩
      exact List.length_eq_zero.mp hl
  | succ n IH =>
    rw [pyProduct, mem_prependAll]
    constructor
    · rintro ⟨c, hc, v, hv, rfl⟩
      obtain ⟨hl, hmem⟩ := IH.mp hv
      refine ⟨by simp [hl], ?_⟩
      intro x hx
      rcases List.mem_cons.mp hx with rfl | hx
      · exact hc
      · exact hmem x hx
    · rintro ⟨hl, hmem⟩
      cases w with
      | nil => simp at hl
      | cons a w' =>
        refine ⟨a, hmem a (by simp), w', IH.mpr ⟨by simpa using hl, ?_⟩, rfl⟩
        intro c hc
        exact hmem c (by simp [hc])

/-- Lexicographic order over an irreflexive base relation is irreflexive. -/
lemma lexLt_irrefl {r : Char → Char → Prop} (hr : ∀ a, ¬ r a a) :
    ∀ l : List Char, ¬ List.Lex r l l := by
  intro l
  induction l with
  | nil =>
    intro h
    cases h
  | cons a t IH =>
    intro h
    cases h with
    | cons h' => exact IH h'
    | rel hab => exact hr a hab

/-- Prepending a common head preserves pairwise lexicographic ordering. -/
lemma pairwise_map_cons {r : Char → Char → Prop} (c : Char) {ws : List (List Char)}
    (h : ws.Pairwise (List.Lex r)) :
    (ws.map (fun w => c :: w)).Pairwise (List.Lex r) :=
  List.Pairwise.map _ (fun _ _ hl => List.Lex.cons hl) h

/-- One `prependAll` layer preserves pairwise lexicographic ordering:
words from an earlier alphabet letter precede words from a later one by
their head, words sharing the head compare by their tails. -/
lemma pairwise_prependAll {r : Char → Char → Prop} {cs : List Char}
    {ws : List (List Char)} (hcs : cs.Pairwise r)
    (hws : ws.Pairwise (List.Lex r)) :
    (prependAll cs ws).Pairwise (List.Lex r) := by
  induction cs with
  | nil => simp [prependAll]
  | cons c cs' IH =>
    rw [List.pairwise_cons] at hcs
    obtain ⟨hhead, htail⟩ := hcs
    rw [show prependAll (c :: cs') ws
      = ws.map (fun w => c :: w) ++ prependAll cs' ws from rfl]
    rw [List.pairwise_append]
    refine ⟨pairwise_map_cons c hws, IH htail, ?_⟩
    intro x hx y hy
    obtain ⟨v, _, rfl⟩ : ∃ v ∈ ws, c :: v = x := by simpa using hx
    obtain ⟨c', hc', v', _, rfl⟩ := mem_prependAll.mp hy
    exact List.Lex.rel (hhead c' hc')

/-- The Cartesian power is pairwise lexicographically ordered whenever the
alphabet is listed in strictly ascending `r`-order. -/
lemma pairwise_pyProduct {r : Char → Char → Prop} {cs : List Char}
    (hcs : cs.Pairwise r) : ∀ n, (pyProduct cs n).Pairwise (List.Lex r) := by
  intro n
  induction n with
  | zero => simp [pyProduct]
  | succ n IH => exact pairwise_prependAll hcs IH

/-- Distinctness of the enumerated words. -/
lemma nodup_pyProduct {r : Char → Char → Prop} {cs : List Char}
    (hcs : cs.Pairwise r) (hr : ∀ a, ¬ r a a) (n : Nat) :
    (pyProduct cs n).Nodup := by
  refine (pairwise_pyProduct hcs n).imp ?_
  intro a b hl heq
  subst heq
  exact lexLt_irrefl hr a hl

/-- The wildcard only suffixes each yielded value: the generator with a
wildcard is the wildcard-free generator mapped through an append, so the
enumeration order is unchanged. -/
lemma character_iteration_wildcard (cfg : Config) (L : Nat) :
    character_iteration_input_generator cfg L
      = (character_iteration_input_generator { cfg with wildcard := none } L).map
          (fun plan => plan.map
            (fun s => ⟨s.index, s.string ++ String.mk (wildcardOf cfg)⟩)) := by
  unfold character_iteration_input_generator
  rw [show alphabetOf { cfg with wildcard := none } = alphabetOf cfg from rfl]
  rw [List.map_map]
  refine List.map_congr_left ?_
  intro w _
  simp only [Function.comp, List.map_cons, List.map_nil]
  rw [show wildcardOf { cfg with wildcard := none } = [] from rfl, List.append_nil]
  rfl

/-- C4: for every configuration, `character_iteration` at length
`inputMinLength` yields exactly `|A| ^ L` plans; every plan is a single
assignment to `formInputIndex` whose value is an enumerated word plus the
wildcard suffix; the enumerated words are exactly the length-`L` words
over the alphabet, pairwise in strictly ascending lexicographic order
(for any strict order `r` consistent with the alphabet listing) and
therefore distinct; and a configured wildcard is appended to every value
without changing the enumeration order. -/
theorem c4_character_iteration_enumeration (cfg : Config)
    (r : Char → Char → Prop) (hA : (alphabetOf cfg).Pairwise r)
    (hr : ∀ a, ¬ r a a) :
    (character_iteration_input_generator cfg cfg.input_minlength).length
        = (alphabetOf cfg).length ^ cfg.input_minlength
  ∧ (∀ p ∈ character_iteration_input_generator cfg cfg.input_minlength,
        ∃ w ∈ pyProduct (alphabetOf cfg) cfg.input_minlength,
          p = [⟨cfg.form_input_index, String.mk (w ++ wildcardOf cfg)⟩])
  ∧ (∀ w ∈ pyProduct (alphabetOf cfg) cfg.input_minlength,
        w.length = cfg.input_minlength ∧ ∀ c ∈ w, c ∈ alphabetOf cfg)
  ∧ (pyProduct (alphabetOf cfg) cfg.input_minlength).Pairwise (List.Lex r)
  ∧ (pyProduct (alphabetOf cfg) cfg.input_minlength).Nodup
  ∧ character_iteration_input_generator cfg cfg.input_minlength
      = (character_iteration_input_generator { cfg with wildcard := none }
            cfg.input_minlength).map
          (fun plan => plan.map
            (fun s => ⟨s.index, s.string ++ String.mk (wildcardOf cfg)⟩)) := by
  refine ⟨?_, ?_, ?_, pairwise_pyProduct hA _, nodup_pyProduct hA hr _,
    character_iteration_wildcard cfg cfg.input_minlength⟩
  · rw [character_iteration_input_generator, List.length_map, length_pyProduct]
  · intro p hp
    obtain ⟨w, hw, rfl⟩ := List.mem_map.mp hp
    exact ⟨w, hw, rfl⟩
  · intro w hw
    exact mem_pyProduct.mp hw

/-- The configuration of the C4 witness: alphabet `ab`, length 2,
wildcard `%`. -/
def c4Cfg : Config :=
  { defaults with form_input_range := some "ab", input_minlength := 2, wildcard := some "%" }

/-- C4 witness: the enumeration facts instantiated at a concrete
configuration with the character order on the concrete alphabet. -/
theorem c4_character_iteration_enumeration_witness :
    (character_iteration_input_generator c4Cfg c4Cfg.input_minlength).length
      = (alphabetOf c4Cfg).length ^ c4Cfg.input_minlength
  ∧ (pyProduct (alphabetOf c4Cfg) c4Cfg.input_minlength).Pairwise
      (List.Lex (fun a b : Char => a < b))
  ∧ (pyProduct (alphabetOf c4Cfg) c4Cfg.input_minlength).Nodup := by
  have h := c4_character_iteration_enumeration c4Cfg (fun a b : Char => a < b)
    (by decide) (fun a => lt_irrefl a)
  exact ⟨h.1, h.2.2.2.1, h.2.2.2.2.1⟩

end Autoscrape

